import Mathlib

/-!
Shallow embedding of `gpt_repository_loader.py` (POSIX platform).

Strings are modelled as `List Char`; a text file's line iteration is modelled
either by `pyLines` on the raw character list (for `get_ignore_list`) or by
passing the list of lines directly (for `split_file`, whose input is always a
text file read line by line, so its content is exactly the concatenation of
its lines).
-/

namespace GptRepoLoader

/-- `LARGE_FILE_SIZE = 1000000` from the source. -/
def LARGE_FILE_SIZE : Nat := 1000000

/-- `SPLIT_SIZE = 4000000` from the source. -/
def SPLIT_SIZE : Nat := 4000000

/-- The four-hyphen delimiter `"-" * 4` from the source. -/
def hyphens4 : List Char := ['-', '-', '-', '-']

/-- `p.startswith q` on strings-as-lists: `isPre p s` means `p` is a leading
segment of `s`. -/
def isPre : List Char → List Char → Bool
  | [], _ => true
  | _ :: _, [] => false
  | a :: as, b :: bs => a == b && isPre as bs

/-- Python's substring test `p in s`. -/
def isSub (p : List Char) : List Char → Bool
  | [] => p.isEmpty
  | c :: t => isPre p (c :: t) || isSub p t

/-- `pattern.startswith("#")`. -/
def startsHash : List Char → Bool
  | [] => false
  | c :: _ => c == '#'

/-- The filter applied inside `should_ignore` (line 27 of the source): keep a
pattern when it is non-empty and is not a comment. -/
def keepPat (p : List Char) : Bool := !p.isEmpty && !startsHash p

/-- Membership of a character in the body of a glob bracket class, with
`a-b` ranges (a trailing or leading `-` is a literal member). -/
def inClass : List Char → Char → Bool
  | [], _ => false
  | [a], c => a == c
  | [a, b], c => a == c || b == c
  | a :: b :: d :: rest, c =>
    if b = '-' then (decide (a ≤ c) && decide (c ≤ d)) || inClass rest c
    else a == c || inClass (b :: d :: rest) c

/-- Scan for the closing `]` of a bracket class, returning the class body and
the remainder of the pattern. -/
def findClose : List Char → Option (List Char × List Char)
  | [] => none
  | c :: r =>
    if c = ']' then some ([], r)
    else
      match findClose r with
      | none => none
      | some (a, b) => some (c :: a, b)

/-- Parse the inside of a bracket class, following `fnmatch.translate`:
a leading `!` negates, a `]` right after the opening (or after `!`) is a
literal member, and an unterminated class makes the `[` a literal. -/
def splitClass (p : List Char) : Option (Bool × List Char × List Char) :=
  match p with
  | '!' :: rest =>
    match rest with
    | ']' :: r2 => (findClose r2).map (fun x => (true, ']' :: x.1, x.2))
    | _ => (findClose rest).map (fun x => (true, x.1, x.2))
  | ']' :: r2 => (findClose r2).map (fun x => (false, ']' :: x.1, x.2))
  | _ => (findClose p).map (fun x => (false, x.1, x.2))

/-- Fuelled glob matcher: `globMatchF fuel pat name`. Each step consumes at
least one character of the pattern or of the name, so
`pat.length + name.length + 1` units of fuel always reach a base case. -/
def globMatchF : Nat → List Char → List Char → Bool
  | 0, _, _ => false
  | _ + 1, [], s => s.isEmpty
  | fuel + 1, p :: ps, s =>
    if p = '*' then
      globMatchF fuel ps s ||
        (match s with
         | [] => false
         | _ :: t => globMatchF fuel ('*' :: ps) t)
    else if p = '?' then
      match s with
      | [] => false
      | _ :: t => globMatchF fuel ps t
    else if p = '[' then
      match splitClass ps with
      | none =>
        match s with
        | [] => false
        | c :: t => (c == '[') && globMatchF fuel ps t
      | some (neg, cls, rest) =>
        match s with
        | [] => false
        | c :: t =>
          (if neg then !(inClass cls c) else inClass cls c) && globMatchF fuel rest t
    else
      match s with
      | [] => false
      | c :: t => (p == c) && globMatchF fuel ps t

/-- Model of `fnmatch.fnmatch(name, pat)` on a POSIX platform (no case
normalisation): anchored glob matching with `*`, `?` and bracket classes. -/
def fnmatch (name pat : List Char) : Bool :=
  globMatchF (pat.length + name.length + 1) pat name

/-- `should_ignore(file_path, ignore_list)` (source lines 25-37): drop empty
and comment patterns, then test substring containment, exact equality, or
`fnmatch` against each remaining pattern. -/
def should_ignore (file_path : List Char) (ignore_list : List (List Char)) : Bool :=
  (ignore_list.filter keepPat).any
    (fun pattern => isSub pattern file_path || pattern == file_path || fnmatch file_path pattern)

/-- Python whitespace for `str.strip()` (ASCII portion). -/
def isPySpace (c : Char) : Bool :=
  c == ' ' || c == '\t' || c == '\n' || c == '\x0d' || c == '\x0b' || c == '\x0c'

/-- `line.strip()`. -/
def pyStrip (s : List Char) : List Char :=
  ((s.dropWhile isPySpace).reverse.dropWhile isPySpace).reverse

/-- Worker for `pyLines`: accumulates the current line (reversed). -/
def pyLinesGo : List Char → List Char → List (List Char)
  | [], acc => if acc.isEmpty then [] else [acc.reverse]
  | c :: r, acc =>
    if c = '\n' then (c :: acc).reverse :: pyLinesGo r []
    else pyLinesGo r (c :: acc)

/-- Python text-file line iteration: split after each newline, keeping the
newline; a final segment without a newline is still a line. -/
def pyLines (content : List Char) : List (List Char) :=
  pyLinesGo content []

/-- `get_ignore_list` (source lines 16-23) on a POSIX platform: strip every
line of the ignore file and keep them all, comments and blanks included. -/
def get_ignore_list (content : List Char) : List (List Char) :=
  (pyLines content).map pyStrip

/-- A regular file met by `os.walk`: its path relative to the repository
root, its on-disk byte size, and its decoded text contents (after
`errors='ignore'` decoding, so the two lengths are independent). -/
structure FsFile where
  rel : List Char
  size : Nat
  contents : List Char
deriving DecidableEq

/-- The three `output_file.write` calls of one included file (source lines
54-56): delimiter line, relative-path line, contents plus a newline. -/
def record (f : FsFile) : List Char :=
  hyphens4 ++ ['\n'] ++ f.rel ++ ['\n'] ++ f.contents ++ ['\n']

/-- A file is included exactly when the large-file skip does not fire and
the ignore matcher does not match. -/
def includedFile (ignore_list : List (List Char)) (ex : Bool) (f : FsFile) : Bool :=
  !(ex && decide (LARGE_FILE_SIZE < f.size)) && !should_ignore f.rel ignore_list

/-- `process_repository` (source lines 39-62), with the walk rendered as the
list of files it yields and the output file handle as an accumulated
character list. A file over `LARGE_FILE_SIZE` is skipped when the flag is
set; otherwise a non-ignored file appends its `record` to the output. -/
def process_repository (files : List FsFile) (ignore_list : List (List Char))
    (exclude_large_files : Bool) (output : List Char) : List Char :=
  match files with
  | [] => output
  | f :: rest =>
    if exclude_large_files && decide (LARGE_FILE_SIZE < f.size) then
      process_repository rest ignore_list exclude_large_files output
    else if !should_ignore f.rel ignore_list then
      process_repository rest ignore_list exclude_large_files (output ++ record f)
    else
      process_repository rest ignore_list exclude_large_files output

/-- The line loop of `split_file` (source lines 118-129): on a line starting
with the four-hyphen delimiter, flush the buffer when its accumulated size
already exceeds `SPLIT_SIZE` and start the new buffer with that line;
otherwise append the line; after the last line the buffer is always
appended as the final chunk. -/
def splitLoop : List (List Char) → List Char → Nat → List (List Char)
  | [], chunk, _ => [chunk]
  | line :: rest, chunk, chunk_size =>
    if isPre hyphens4 line then
      if SPLIT_SIZE < chunk_size then
        chunk :: splitLoop rest line line.length
      else
        splitLoop rest (chunk ++ line) (chunk_size + line.length)
    else
      splitLoop rest (chunk ++ line) (chunk_size + line.length)

/-- `split_file` (source lines 108-133) on the input file's lines, returning
the chunks in the order their files are written (`_0.txt`, `_1.txt`, ...). -/
def split_file (lines : List (List Char)) : List (List Char) :=
  splitLoop lines [] 0

/-- Failure modes of the modelled CLI prefix: the usage exit for a missing
repository path, and Python's `IndexError` from `sys.argv[i + 1]`. -/
inductive CliError
  | usage
  | indexError
deriving DecidableEq

/-- The argv-derived configuration assembled by `__main__`
(source lines 136-183); filesystem-dependent steps (ignore-file lookup,
tree printing) are not part of it. -/
structure CliConfig where
  repo_path : List Char
  preamble_file : Option (List Char)
  output_file_path : List Char
  list_files : Bool
  verbose : Bool
  exclude_large_files : Bool
  split_output : Bool
deriving DecidableEq

/-- `sys.argv[sys.argv.index(flag) + 1]` guarded by `flag in sys.argv`
(source lines 161-162 and 165-166): the first occurrence of the flag is
found, and a missing following element raises `IndexError`. -/
def flagValue (argv : List (List Char)) (flag : List Char) :
    Except CliError (Option (List Char)) :=
  if flag ∈ argv then
    match argv.get? (argv.indexOf flag + 1) with
    | some v => Except.ok (some v)
    | none => Except.error CliError.indexError
  else Except.ok none

/-- The argv handling of `__main__` (source lines 136-183): usage exit when
fewer than two arguments, then the `-p` value lookup, then the `-o` value
lookup, then the boolean flags. -/
def parse_cli (argv : List (List Char)) : Except CliError CliConfig :=
  if argv.length < 2 then Except.error CliError.usage
  else
    match flagValue argv "-p".toList with
    | Except.error e => Except.error e
    | Except.ok preamble =>
      match flagValue argv "-o".toList with
      | Except.error e => Except.error e
      | Except.ok out =>
        Except.ok
          { repo_path := argv.getD 1 []
            preamble_file := preamble
            output_file_path := out.getD "output.txt".toList
            list_files := argv.contains "-l".toList
            verbose := argv.contains "-v".toList
            exclude_large_files := argv.contains "-x".toList
            split_output := argv.contains "-s".toList }

/-- Example splitter input: the four-hyphen delimiter line. -/
def dLine : List Char := ['-', '-', '-', '-', '\n']

/-- Example splitter input: a contents line of 4,000,000 characters. -/
def bigLine : List Char := List.replicate 4000000 'a' ++ ['\n']

/-- Example splitter input: a short non-delimiter line. -/
def tailLine : List Char := ['x', '\n']

/-- Example splitter input: an output file with a record whose contents
exceed `SPLIT_SIZE`, followed by a second record. -/
def exLines : List (List Char) := [dLine, bigLine, dLine, tailLine]

lemma bigLine_length : bigLine.length = 4000001 := by
  rw [bigLine, List.length_append, List.length_replicate]
  rfl

lemma bigLine_cons : bigLine = 'a' :: (List.replicate 3999999 'a' ++ ['\n']) := by
  rw [bigLine, show (4000000 : Nat) = 3999999 + 1 from rfl, List.replicate_succ]
  rfl

lemma bigLine_not_delim : isPre hyphens4 bigLine = false := by
  rw [bigLine_cons]; rfl

lemma isPre_append {p a : List Char} (b : List Char) (h : isPre p a = true) :
    isPre p (a ++ b) = true := by
  induction p generalizing a with
  | nil => simp [isPre]
  | cons x xs ih =>
    cases a with
    | nil => simp [isPre] at h
    | cons y ys =>
      simp only [isPre, Bool.and_eq_true] at h
      simp only [List.cons_append, isPre, Bool.and_eq_true]
      exact ⟨h.1, ih h.2⟩

lemma splitLoop_ne_nil (lines : List (List Char)) (chunk : List Char) (n : Nat) :
    splitLoop lines chunk n ≠ [] := by
  induction lines generalizing chunk n with
  | nil => simp [splitLoop]
  | cons line rest ih =>
    simp only [splitLoop]
    split
    · split
      · simp
      · exact ih _ _
    · exact ih _ _

lemma splitLoop_flatten (lines : List (List Char)) (chunk : List Char) (n : Nat) :
    (splitLoop lines chunk n).flatten = chunk ++ lines.flatten := by
  induction lines generalizing chunk n with
  | nil => simp [splitLoop]
  | cons line rest ih =>
    simp only [splitLoop, List.flatten_cons]
    split
    · split
      · simp [List.flatten_cons, ih, List.append_assoc]
      · simp [ih, List.append_assoc]
    · simp [ih, List.append_assoc]

lemma splitLoop_tail_delim (lines : List (List Char)) (chunk : List Char) (n : Nat) :
    ∃ s t, splitLoop lines chunk n = (chunk ++ s) :: t ∧
      ∀ c ∈ t, isPre hyphens4 c = true := by
  induction lines generalizing chunk n with
  | nil => exact ⟨[], [], by simp [splitLoop], by simp⟩
  | cons line rest ih =>
    simp only [splitLoop]
    by_cases hd : isPre hyphens4 line = true
    · by_cases hs : SPLIT_SIZE < n
      · rcases ih line line.length with ⟨s, t, heq, hall⟩
        refine ⟨[], splitLoop rest line line.length, by simp [hd, hs], ?_⟩
        intro c hc
        rw [heq] at hc
        rcases List.mem_cons.mp hc with hc | hc
        · subst hc
          exact isPre_append s hd
        · exact hall c hc
      · rcases ih (chunk ++ line) (n + line.length) with ⟨s, t, heq, hall⟩
        exact ⟨line ++ s, t, by simp [hd, hs, heq, List.append_assoc], hall⟩
    · rcases ih (chunk ++ line) (n + line.length) with ⟨s, t, heq, hall⟩
      exact ⟨line ++ s, t, by simp [hd, heq, List.append_assoc], hall⟩

lemma splitLoop_dropLast_size (lines : List (List Char)) (chunk : List Char) (n : Nat)
    (hn : n = chunk.length) :
    ∀ c ∈ (splitLoop lines chunk n).dropLast, SPLIT_SIZE < c.length := by
  induction lines generalizing chunk n with
  | nil => simp [splitLoop]
  | cons line rest ih =>
    simp only [splitLoop]
    by_cases hd : isPre hyphens4 line = true
    · by_cases hs : SPLIT_SIZE < n
      · simp only [hd, hs, if_true]
        intro c hc
        cases hSs : splitLoop rest line line.length with
        | nil => exact absurd hSs (splitLoop_ne_nil rest line line.length)
        | cons a as =>
          rw [hSs, List.dropLast_cons₂] at hc
          rcases List.mem_cons.mp hc with hc | hc
          · subst hc
            rw [← hn]
            exact hs
          · have := ih line line.length rfl
            rw [hSs] at this
            exact this c hc
      · simp only [hd, hs, if_true, if_neg hs]
        exact ih (chunk ++ line) (n + line.length) (by simp [hn])
    · simp only [if_neg hd]
      exact ih (chunk ++ line) (n + line.length) (by simp [hn])

lemma split_exLines : split_file exLines = [dLine ++ bigLine, dLine ++ tailLine] := by
  simp only [split_file, exLines, splitLoop, bigLine_not_delim, bigLine_length]
  norm_num [dLine, tailLine, hyphens4, isPre, SPLIT_SIZE]

lemma process_repository_append (files : List FsFile) (l : List (List Char)) (ex : Bool)
    (out : List Char) :
    process_repository files l ex out =
      out ++ ((files.filter (includedFile l ex)).map record).flatten := by
  induction files generalizing out with
  | nil => simp [process_repository]
  | cons f rest ih =>
    by_cases h1 : (ex && decide (LARGE_FILE_SIZE < f.size)) = true
    · simp [process_repository, h1, includedFile, ih]
    · by_cases h2 : should_ignore f.rel l = true
      · simp [process_repository, h1, h2, includedFile, ih]
      · simp [process_repository, h1, h2, includedFile, ih, List.append_assoc]

/-- C1 (amended): `should_ignore` returns true exactly when some non-empty,
non-comment pattern of the list is a substring of the path, equals it, or
glob-matches it; in particular a non-empty, non-comment pattern of the list
that is a substring of the path forces "ignored", and a path matching no
pattern at all yields "not ignored". -/
theorem should_ignore_iff (path : List Char) (l : List (List Char)) :
    (should_ignore path l = true ↔
      ∃ p, p ∈ l ∧ p ≠ [] ∧ startsHash p = false ∧
        (isSub p path = true ∨ p = path ∨ fnmatch path p = true))
    ∧ (∀ p, p ∈ l → p ≠ [] → startsHash p = false → isSub p path = true →
        should_ignore path l = true)
    ∧ ((∀ p, p ∈ l → isSub p path = false ∧ p ≠ path ∧ fnmatch path p = false) →
        should_ignore path l = false) := by
  have hiff : should_ignore path l = true ↔
      ∃ p, p ∈ l ∧ p ≠ [] ∧ startsHash p = false ∧
        (isSub p path = true ∨ p = path ∨ fnmatch path p = true) := by
    simp only [should_ignore, List.any_eq_true, List.mem_filter, keepPat,
      Bool.and_eq_true, Bool.not_eq_true', List.isEmpty_eq_false,
      Bool.or_eq_true, beq_iff_eq, or_assoc]
    constructor
    · rintro ⟨p, ⟨hp, hne, hh⟩, hm⟩
      exact ⟨p, hp, hne, hh, hm⟩
    · rintro ⟨p, hp, hne, hh, hm⟩
      exact ⟨p, ⟨hp, hne, hh⟩, hm⟩
  refine ⟨hiff, ?_, ?_⟩
  · intro p hp hne hh hsub
    exact hiff.mpr ⟨p, hp, hne, hh, Or.inl hsub⟩
  · intro h
    cases hsi : should_ignore path l with
    | false => rfl
    | true =>
      rcases hiff.mp hsi with ⟨p, hp, _, _, hc⟩
      rcases h p hp with ⟨h1, h2, h3⟩
      rcases hc with hc | hc | hc
      · rw [h1] at hc; exact absurd hc (by simp)
      · exact absurd hc h2
      · rw [h3] at hc; exact absurd hc (by simp)

/-- C1 witness: the pattern "a" is non-empty, non-comment and a substring of
the path "ab", so the matcher ignores the path. -/
theorem should_ignore_iff_witness :
    should_ignore "ab".toList ["a".toList] = true :=
  (should_ignore_iff "ab".toList ["a".toList]).2.1 "a".toList (by decide) (by decide)
    (by decide) (by decide)

/-- C1 counterexample: the pattern "#x" is a non-empty substring of the path
"a#x", yet `should_ignore` answers "not ignored", because comment patterns
are discarded before matching. -/
theorem should_ignore_substring_counterexample :
    isSub "#x".toList "a#x".toList = true ∧ "#x".toList ≠ ([] : List Char) ∧
      should_ignore "a#x".toList ["#x".toList] = false := by
  refine ⟨by decide, by decide, by decide⟩

/-- C2: a run of the concatenator writes, in walk order, exactly one record
per file that survives the large-file check and the ignore matcher, each
record being the delimiter line, the relative-path line and the contents
followed by a newline, and writes nothing else. -/
theorem process_repository_round_trip (files : List FsFile) (l : List (List Char))
    (ex : Bool) :
    process_repository files l ex [] =
      ((files.filter (includedFile l ex)).map record).flatten := by
  simpa using process_repository_append files l ex []

/-- C7: with the skip-large-files flag set, a file over `LARGE_FILE_SIZE`
bytes contributes nothing to the output, whatever the ignore list says. -/
theorem large_file_skipped (f : FsFile) (rest : List FsFile) (l : List (List Char))
    (out : List Char) (h : LARGE_FILE_SIZE < f.size) :
    process_repository (f :: rest) l true out = process_repository rest l true out := by
  simp [process_repository, h]

/-- C7 witness: a 2,000,000-byte file `big.bin` is skipped even though the
ignore list contains a pattern matching its path. -/
theorem large_file_skipped_witness :
    process_repository [⟨"big.bin".toList, 2000000, []⟩] ["big.bin".toList] true [] =
      process_repository [] ["big.bin".toList] true [] :=
  large_file_skipped ⟨"big.bin".toList, 2000000, []⟩ [] ["big.bin".toList] [] (by decide)

/-- C8: the ignore matcher depends only on the non-blank, non-comment
patterns of its list, and the loader keeps blank and comment lines,
stripped, in the loaded list. -/
theorem ignore_comments_inert :
    (∀ (path : List Char) (l l2 : List (List Char)),
        l.filter keepPat = l2.filter keepPat →
        should_ignore path l = should_ignore path l2)
    ∧ get_ignore_list "a\n#b\n\nc\n".toList =
        ["a".toList, "#b".toList, [], "c".toList] := by
  constructor
  · intro path l l2 h
    simp only [should_ignore, h]
  · rfl

/-- C8 witness: inserting a comment line and a blank line leaves the
matcher's answer unchanged. -/
theorem ignore_comments_inert_witness :
    should_ignore "a".toList ["#z".toList, [], "a".toList] =
      should_ignore "a".toList ["a".toList] :=
  ignore_comments_inert.1 "a".toList ["#z".toList, [], "a".toList] ["a".toList] (by decide)

/-- C3 at the failing input: on an output file whose first record's contents
span 4,000,001 characters, the splitter emits a chunk of 4,000,006
characters, which is not under the 4,000,000 limit its own comment and the
spec promise. -/
theorem split_chunk_exceeds_limit :
    ∃ c ∈ split_file exLines, ¬(c.length < SPLIT_SIZE) := by
  refine ⟨dLine ++ bigLine, ?_, ?_⟩
  · rw [split_exLines]
    simp
  · rw [List.length_append, bigLine_length]
    norm_num [dLine, SPLIT_SIZE]

/-- C4: concatenating the chunks produced by the splitter, in index order,
reproduces the input file's content (the concatenation of its lines)
exactly. -/
theorem split_file_concat (lines : List (List Char)) :
    (split_file lines).flatten = lines.flatten := by
  simpa using splitLoop_flatten lines [] 0

/-- C5: every chunk after the first starts with the four-hyphen delimiter,
so each chunk boundary falls immediately before a delimiter line and a
record's delimiter and path lines land in the same chunk. -/
theorem chunk_boundaries_delimited (lines : List (List Char)) (i : Nat) (c : List Char)
    (h : (split_file lines).get? (i + 1) = some c) :
    isPre hyphens4 c = true := by
  rcases splitLoop_tail_delim lines [] 0 with ⟨s, t, heq, hall⟩
  rw [split_file, heq, List.get?_cons_succ] at h
  exact hall c (List.get?_mem h)

/-- C5 witness: on the two-chunk example, the second chunk starts with the
delimiter line. -/
theorem chunk_boundaries_delimited_witness :
    isPre hyphens4 (dLine ++ tailLine) = true :=
  chunk_boundaries_delimited exLines 0 (dLine ++ tailLine) (by rw [split_exLines]; rfl)

/-- C6: the splitter always produces at least one chunk, and the empty
input file yields exactly one empty chunk. -/
theorem splitter_at_least_one_chunk :
    (∀ lines : List (List Char), 0 < (split_file lines).length) ∧
      split_file [] = [[]] := by
  refine ⟨fun lines => List.length_pos.mpr (splitLoop_ne_nil lines [] 0), rfl⟩

/-- C10: every chunk except the last has size strictly greater than
`SPLIT_SIZE`, since a buffer is flushed only at a delimiter line once its
accumulated size already exceeds the threshold. -/
theorem nonfinal_chunk_oversized (lines : List (List Char)) (c : List Char)
    (h : c ∈ (split_file lines).dropLast) : SPLIT_SIZE < c.length :=
  splitLoop_dropLast_size lines [] 0 rfl c h

/-- C10 witness: on the two-chunk example, the non-final chunk has
4,000,006 characters, which exceeds `SPLIT_SIZE`. -/
theorem nonfinal_chunk_oversized_witness : SPLIT_SIZE < (dLine ++ bigLine).length :=
  nonfinal_chunk_oversized exLines (dLine ++ bigLine) (by rw [split_exLines]; simp)

lemma flagValue_error (argv : List (List Char)) (flag : List Char) (e : CliError)
    (h : flagValue argv flag = Except.error e) : e = CliError.indexError := by
  rw [flagValue] at h
  split at h
  · split at h
    · cases h
    · cases h
      rfl
  · cases h

/-- C9 (amended): when the repository-path argument is present and the first
occurrence of `-p` (or of `-o`) is the last argument, the CLI handling
aborts with the uncaught index-out-of-range error. -/
theorem missing_flag_value_crashes (argv : List (List Char)) (h2 : 2 ≤ argv.length)
    (h : ("-p".toList ∈ argv ∧ argv.indexOf "-p".toList + 1 = argv.length) ∨
         ("-o".toList ∈ argv ∧ argv.indexOf "-o".toList + 1 = argv.length)) :
    parse_cli argv = Except.error CliError.indexError := by
  have hlen : ¬ argv.length < 2 := by omega
  rcases h with ⟨hm, hi⟩ | ⟨hm, hi⟩
  · have hv : flagValue argv "-p".toList = Except.error CliError.indexError := by
      rw [flagValue, if_pos hm,
        show argv.get? (argv.indexOf "-p".toList + 1) = none from
          List.get?_eq_none.mpr (by omega)]
    rw [parse_cli, if_neg hlen, hv]
  · have hvo : flagValue argv "-o".toList = Except.error CliError.indexError := by
      rw [flagValue, if_pos hm,
        show argv.get? (argv.indexOf "-o".toList + 1) = none from
          List.get?_eq_none.mpr (by omega)]
    cases hp : flagValue argv "-p".toList with
    | error e =>
      have he := flagValue_error argv "-p".toList e hp
      subst he
      rw [parse_cli, if_neg hlen, hp]
    | ok v => rw [parse_cli, if_neg hlen, hp, hvo]

/-- C9 witness: `["prog", "repo", "-o"]` has `-o` as its final argument, and
handling aborts with the index error. -/
theorem missing_flag_value_crashes_witness :
    parse_cli ["prog".toList, "repo".toList, "-o".toList] =
      Except.error CliError.indexError :=
  missing_flag_value_crashes ["prog".toList, "repo".toList, "-o".toList] (by decide)
    (Or.inr ⟨by decide, by decide⟩)

/-- C9 counterexample: `-p` is the last argument and no value follows it,
yet the run does not fail: the lookup resolves the first occurrence of
`-p`, takes `x` as the preamble path, and succeeds. -/
theorem trailing_flag_parses_ok :
    parse_cli ["prog".toList, "repo".toList, "-p".toList, "x".toList, "-p".toList] =
      Except.ok
        { repo_path := "repo".toList
          preamble_file := some "x".toList
          output_file_path := "output.txt".toList
          list_files := false
          verbose := false
          exclude_large_files := false
          split_output := false } := rfl

end GptRepoLoader
